import Mathlib

/-
Verification development for the minitorch scalar autodifferentiation core
(`minitorch/scalar_functions.py` and the engine it is built on).

Raw Python floats are embedded as rationals (ℚ): every numeric claim below is
about exact field arithmetic, which the spec's formulas are stated in.
The transcendental primitives (natural exp / log) have no rational
implementation, so the operations that mention them (`Log`, `Sigmoid`, `Exp`)
are parametrised by the underlying function; no claim depends on its values.
-/

namespace Minitorch

/-- A Python runtime value as seen at the `apply` boundary: the forward rule of
an operation returns some Python object, and `apply` asserts it is a `float`.
Only the shapes that matter to the boundary check are distinguished. -/
inductive PyVal where
  | float (x : ℚ)
  | int (n : ℤ)
  | tup (xs : List ℚ)

/-- Whether a Python value is a raw float (`isinstance(c, float)`). -/
def PyVal.isFloat : PyVal → Bool
  | .float _ => true
  | _ => false

/-- The value a backward rule returns in Python: either a single float
(e.g. `Log.backward`) or a tuple of floats (e.g. `Mul.backward`). -/
inductive FloatOrTuple where
  | val (x : ℚ)
  | tup (xs : List ℚ)

/-- Modelled from the spec: the defect taxonomy of §7 (ArityMismatch,
ContractViolation, MissingSavedData, UntrackedBackward).  `typeError` is the
Python-level defect of calling a forward rule with the wrong number of
arguments; it is outside the spec's taxonomy but needed to keep the embedding
total. -/
inductive Defect where
  | arityMismatch
  | contractViolation
  | missingSavedData
  | untrackedBackward
  | typeError
deriving DecidableEq

/-- Modelled from the spec: the `Context` record of §3/§4.1 (the class itself
lives in `minitorch/autodiff.py`, which is not part of the excerpted source).
It carries the gradient-tracking flag (`no_grad`, as passed positionally by
`ScalarFunction.apply` via `Context(False)`) and the ordered sequence of saved
raw values, empty when `save` was never called. -/
structure Context where
  no_grad : Bool
  saved_values : List ℚ

/-- Modelled from the spec: `save(values…)` stores the given raw values,
overwriting any previous save, preserving argument order; if the tracking
flag is off (`no_grad`), `save` is a no-op (§4.1). -/
def Context.save_for_backward (ctx : Context) (vs : List ℚ) : Context :=
  if ctx.no_grad then ctx else { ctx with saved_values := vs }

/-- Turn a possible value into a tuple (`wrap_tuple` in
`scalar_functions.py`): a tuple is returned as is, anything else becomes a
one-element tuple. -/
def wrap_tuple : FloatOrTuple → List ℚ
  | .tup xs => xs
  | .val x => [x]

/-- A `ScalarFunction` subclass, seen as its pair of static methods.
`forward` consumes the per-call `Context` and the raw operand values (a list,
embedding Python's `*inps`; `none` embeds the `TypeError` raised when the
argument count does not match the rule's signature) and returns the updated
context together with the produced Python value.  `backward` consumes the
context and the output derivative and returns a single value or a tuple, or
raises a defect. -/
structure ScalarFunction where
  forward : Context → List ℚ → Option (Context × PyVal)
  backward : Context → ℚ → Except Defect FloatOrTuple

/-- ScalarFunction._backward: wraps the class's backward result into a tuple
(`wrap_tuple(cls.backward(ctx, d_out))`). -/
def ScalarFunction._backward (cls : ScalarFunction) (ctx : Context) (d_out : ℚ) :
    Except Defect (List ℚ) :=
  (cls.backward ctx d_out).map wrap_tuple

/-- ScalarFunction._forward: calls the class's forward (`cls.forward(ctx, *inps)`). -/
def ScalarFunction._forward (cls : ScalarFunction) (ctx : Context) (inps : List ℚ) :
    Option (Context × PyVal) :=
  cls.forward ctx inps

namespace operators

/-- Modelled from the spec: the multiply primitive of the numeric library
(`operators.py` is not part of the excerpted source). -/
def mul (a b : ℚ) : ℚ := a * b

/-- Modelled from the spec: the negate primitive. -/
def neg (a : ℚ) : ℚ := -a

/-- Modelled from the spec: the invert primitive, `1/a` (§4.2 table). -/
def inv (a : ℚ) : ℚ := 1 / a

/-- Modelled from the spec: the invert-derivative primitive, `−d/a²` (§4.2 table). -/
def inv_back (a d : ℚ) : ℚ := -d / a ^ 2

/-- Modelled from the spec: the log-derivative primitive, `d/a` (§4.2 table). -/
def log_back (a d : ℚ) : ℚ := d / a

/-- Modelled from the spec: the relu primitive, `max(0, a)` (§4.2 table). -/
def relu (a : ℚ) : ℚ := max 0 a

/-- Modelled from the spec: the relu-derivative primitive, `d if a>0 else 0`
(§4.2 table). -/
def relu_back (a d : ℚ) : ℚ := if 0 < a then d else 0

/-- Modelled from the spec: the sigmoid primitive `1/(1+e^{−x})`, parametrised
by the exponential. -/
def sigmoid (ex : ℚ → ℚ) (x : ℚ) : ℚ := 1 / (1 + ex (-x))

/-- Modelled from the spec: the greater-than primitive (a Python bool). -/
def gt (a b : ℚ) : Bool := b < a

/-- Modelled from the spec: the less-than primitive (a Python bool). -/
def lt (a b : ℚ) : Bool := a < b

/-- Modelled from the spec: the equal primitive (a Python bool). -/
def eq (a b : ℚ) : Bool := a == b

end operators

/-- Addition function `f(x, y) = x + y`; backward returns `(d, d)`, no save. -/
def Add : ScalarFunction where
  forward := fun ctx inps =>
    match inps with
    | [a, b] => some (ctx, .float (a + b))
    | _ => none
  backward := fun _ d_output => .ok (.tup [d_output, d_output])

/-- Log function `f(x) = log(x)`: forward saves `a` and returns `log a`;
backward unpacks the single saved value and returns `log_back a d`.  The
destructuring `(a,) = ctx.saved_values` raises unless exactly one value was
saved (MissingSavedData). -/
def Log (lg : ℚ → ℚ) : ScalarFunction where
  forward := fun ctx inps =>
    match inps with
    | [a] => some (ctx.save_for_backward [a], .float (lg a))
    | _ => none
  backward := fun ctx d_output =>
    match ctx.saved_values with
    | [a] => .ok (.val (operators.log_back a d_output))
    | _ => .error .missingSavedData

/-- Multiplication function `f(x, y) = x * y`: forward saves `(a, b)` and
returns `a * b`; backward unpacks the two saved values and returns
`(b·d, a·d)`. -/
def Mul : ScalarFunction where
  forward := fun ctx inps =>
    match inps with
    | [a, b] => some (ctx.save_for_backward [a, b], .float (operators.mul a b))
    | _ => none
  backward := fun ctx d_output =>
    match ctx.saved_values with
    | [a, b] => .ok (.tup [b * d_output, a * d_output])
    | _ => .error .missingSavedData

/-- Inverse function `f(x) = 1/x`: forward saves `a`; backward returns
`inv_back a d`. -/
def Inv : ScalarFunction where
  forward := fun ctx inps =>
    match inps with
    | [a] => some (ctx.save_for_backward [a], .float (operators.inv a))
    | _ => none
  backward := fun ctx d_output =>
    match ctx.saved_values with
    | [a] => .ok (.val (operators.inv_back a d_output))
    | _ => .error .missingSavedData

/-- Negation function `f(x) = -x`: forward saves `a`; backward unpacks the
saved value (raising MissingSavedData on an empty context) and returns
`-1.0 * d`. -/
def Neg : ScalarFunction where
  forward := fun ctx inps =>
    match inps with
    | [a] => some (ctx.save_for_backward [a], .float (operators.neg a))
    | _ => none
  backward := fun ctx d_output =>
    match ctx.saved_values with
    | [_] => .ok (.val (-1 * d_output))
    | _ => .error .missingSavedData

/-- Sigmoid function: forward saves `a` and returns `sigmoid a`; backward
returns `sigmoid a * (1 - sigmoid a) * d`. -/
def Sigmoid (ex : ℚ → ℚ) : ScalarFunction where
  forward := fun ctx inps =>
    match inps with
    | [a] => some (ctx.save_for_backward [a], .float (operators.sigmoid ex a))
    | _ => none
  backward := fun ctx d_output =>
    match ctx.saved_values with
    | [a] => .ok (.val (operators.sigmoid ex a * (1 - operators.sigmoid ex a) * d_output))
    | _ => .error .missingSavedData

/-- Rectified Linear Unit function `f(x) = max(0, x)`: forward saves `a`;
backward returns `relu_back a d`. -/
def ReLU : ScalarFunction where
  forward := fun ctx inps =>
    match inps with
    | [a] => some (ctx.save_for_backward [a], .float (operators.relu a))
    | _ => none
  backward := fun ctx d_output =>
    match ctx.saved_values with
    | [a] => .ok (.val (operators.relu_back a d_output))
    | _ => .error .missingSavedData

/-- Exponential function `f(x) = e^x`: forward saves `a`; backward returns
`exp a * d`. -/
def Exp (ex : ℚ → ℚ) : ScalarFunction where
  forward := fun ctx inps =>
    match inps with
    | [a] => some (ctx.save_for_backward [a], .float (ex a))
    | _ => none
  backward := fun ctx d_output =>
    match ctx.saved_values with
    | [a] => .ok (.val (ex a * d_output))
    | _ => .error .missingSavedData

/-- Greater-than function `f(x, y) = x > y`: forward saves `(a, b)` and
returns `float(gt a b)`; backward is the constant `(0.0, 0.0)`. -/
def GT : ScalarFunction where
  forward := fun ctx inps =>
    match inps with
    | [a, b] => some (ctx.save_for_backward [a, b],
        .float (if operators.gt a b then 1 else 0))
    | _ => none
  backward := fun _ _ => .ok (.tup [0, 0])

/-- Less-than function `f(x, y) = x < y`: forward saves `(a, b)` and returns
`float(lt a b)`; backward is the constant `(0.0, 0.0)`. -/
def LT : ScalarFunction where
  forward := fun ctx inps =>
    match inps with
    | [a, b] => some (ctx.save_for_backward [a, b],
        .float (if operators.lt a b then 1 else 0))
    | _ => none
  backward := fun _ _ => .ok (.tup [0, 0])

/-- Equal function `f(x, y) = x == y`: forward saves `(a, b)` and returns
`float(eq a b)`; backward is the constant `(0.0, 0.0)`. -/
def EQ : ScalarFunction where
  forward := fun ctx inps =>
    match inps with
    | [a, b] => some (ctx.save_for_backward [a, b],
        .float (if operators.eq a b then 1 else 0))
    | _ => none
  backward := fun _ _ => .ok (.tup [0, 0])

/-- Modelled from the spec: the handle a caller holds on a computation node —
its process-wide identifier and its raw numeric payload (§3).  The node's
History and gradient accumulator live in the arena (`GState`), following the
arena representation the spec's design notes prescribe (§9). -/
structure Scalar where
  unique_id : ℕ
  data : ℚ

/-- The History record built by `apply`
(`minitorch.scalar.ScalarHistory(cls, ctx, scalars)`): the producing
operation, the Context used for the production, and the ordered parent
nodes, referenced by identifier (§9). -/
structure ScalarHistory where
  last_fn : ScalarFunction
  ctx : Context
  inputs : List ℕ

/-- Modelled from the spec: the arena record of one computation node — its
identifier, payload, optional History (absent ⇔ leaf) and mutable gradient
accumulator, initially unset (§3, §9). -/
structure NodeRec where
  unique_id : ℕ
  data : ℚ
  history : Option ScalarHistory
  derivative : Option ℚ

/-- Modelled from the spec: the process-wide construction state — the
monotonically incrementing identifier counter (§5) and the arena of node
records (§9). -/
structure GState where
  nextId : ℕ
  nodes : List NodeRec

/-- The arena lookup of a node record by identifier. -/
def GState.find (s : GState) (uid : ℕ) : Option NodeRec :=
  s.nodes.find? (fun n => n.unique_id == uid)

/-- Modelled from the spec: constructing a leaf node from a raw number
(`minitorch.scalar.Scalar(v)` with no producing History): the node takes the
next identifier and is appended to the arena with no History and an unset
accumulator. -/
def Scalar.mkLeaf (x : ℚ) (s : GState) : Scalar × GState :=
  (⟨s.nextId, x⟩, ⟨s.nextId + 1, s.nodes ++ [⟨s.nextId, x, none, none⟩]⟩)

/-- An argument to `apply`: an existing Scalar node or a raw number
(`ScalarLike`). -/
inductive ScalarLike where
  | scalar (v : Scalar)
  | raw (x : ℚ)

/-- The raw numeric value of an argument (`v.data` for a node, `v` itself for
a raw number). -/
def ScalarLike.rawData : ScalarLike → ℚ
  | .scalar v => v.data
  | .raw x => x

/-- The argument loop of `ScalarFunction.apply`: walks `vals` in call order,
keeping each Scalar node as is (collecting `v.data` as its raw value) and
wrapping each raw number into a fresh leaf node; returns the
(node, raw value) pairs in call order together with the updated state. -/
def processVals : List ScalarLike → GState → List (Scalar × ℚ) × GState
  | [], s => ([], s)
  | .scalar v :: rest, s =>
    let (ps, s') := processVals rest s
    ((v, v.data) :: ps, s')
  | .raw x :: rest, s =>
    let (lf, s1) := Scalar.mkLeaf x s
    let (ps, s2) := processVals rest s1
    ((lf, x) :: ps, s2)

/-- ScalarFunction.apply: converts the arguments to scalars and raw values,
creates the Context (`Context(False)` — tracking active), calls `_forward`
with the raw values, asserts the result is a raw float
(ContractViolation otherwise), and builds the new computed node with a new
History `{operation, context, operand nodes in call order}`. -/
def ScalarFunction.apply (cls : ScalarFunction) (vals : List ScalarLike) (s : GState) :
    Except Defect (Scalar × GState) :=
  let (pairs, s1) := processVals vals s
  let scalars : List ℕ := pairs.map (fun p => p.1.unique_id)
  let raw_vals : List ℚ := pairs.map Prod.snd
  let ctx : Context := ⟨false, []⟩
  match ScalarFunction._forward cls ctx raw_vals with
  | none => .error .typeError
  | some (ctx', c) =>
    match c with
    | .float x =>
      let back : ScalarHistory := ⟨cls, ctx', scalars⟩
      .ok (⟨s1.nextId, x⟩,
           ⟨s1.nextId + 1, s1.nodes ++ [⟨s1.nextId, x, some back, none⟩]⟩)
    | _ => .error .contractViolation

/-- Modelled from the spec: backward-dispatch (§4.2) — invokes the
operation's backward rule through `_backward` (which normalizes the result
into a tuple) and checks that the tuple's length equals the number of raw
operands the forward call received; a mismatch is an ArityMismatch defect. -/
def backward_dispatch (fn : ScalarFunction) (ctx : Context) (d_out : ℚ) (n : ℕ) :
    Except Defect (List ℚ) :=
  match ScalarFunction._backward fn ctx d_out with
  | .error e => .error e
  | .ok grads => if grads.length = n then .ok grads else .error .arityMismatch

/-- Adds `d` into the buffer entry of identifier `u`, creating the entry if
absent (§4.3 step 4). -/
def bufAdd : List (ℕ × ℚ) → ℕ → ℚ → List (ℕ × ℚ)
  | [], u, d => [(u, d)]
  | (k, w) :: rest, u, d =>
    if k = u then (k, w + d) :: rest else (k, w) :: bufAdd rest u d

/-- Distributes the (parent, local derivative) pairs into the gradient
buffer, summing contributions (§4.3 step 4). -/
def distribute (buf : List (ℕ × ℚ)) : List (ℕ × ℚ) → List (ℕ × ℚ)
  | [] => buf
  | (p, g) :: rest => distribute (bufAdd buf p g) rest

/-- Adds `d` into the persistent gradient accumulator of node `uid` (an unset
accumulator counts as zero). -/
def GState.accumulate (s : GState) (uid : ℕ) (d : ℚ) : GState :=
  ⟨s.nextId,
   s.nodes.map (fun n =>
     if n.unique_id = uid then
       { n with derivative := some (n.derivative.getD 0 + d) }
     else n)⟩

/-- Modelled from the spec: one propagation step of the backward engine
(§4.3 step 4) at candidate identifier `uid`.  A node without a buffer entry
is skipped; a leaf adds its accumulated derivative into its persistent
accumulator; a computed node must have been built with tracking active
(UntrackedBackward otherwise, §7) and dispatches its backward rule, adding
each parent's local derivative into the buffer. -/
def stepNode (acc : GState × List (ℕ × ℚ)) (uid : ℕ) :
    Except Defect (GState × List (ℕ × ℚ)) :=
  let (s, buf) := acc
  match List.lookup uid buf with
  | none => .ok (s, buf)
  | some d =>
    let buf' := buf.filter (fun p => p.1 ≠ uid)
    match s.find uid with
    | none => .ok (s, buf')
    | some n =>
      match n.history with
      | none => .ok (s.accumulate uid d, buf')
      | some h =>
        if h.ctx.no_grad then .error .untrackedBackward
        else
          match backward_dispatch h.last_fn h.ctx d h.inputs.length with
          | .error e => .error e
          | .ok grads => .ok (s, distribute buf' (h.inputs.zip grads))

/-- Modelled from the spec: the backward engine (§4.3).  Because every node's
identifier exceeds all of its parents' identifiers, scanning the candidate
identifiers downwards from the root is the reverse-topological order of
§4.3 step 2, and a node that never received a buffer entry is skipped exactly
as step 4 prescribes, so unreachable identifiers are harmless.  The gradient
buffer is seeded with the root mapped to the seed derivative. -/
def backpropagate (s : GState) (root : ℕ) (seed : ℚ) : Except Defect GState := do
  let r ← ((List.range (root + 1)).reverse).foldlM stepNode (s, [(root, seed)])
  pure r.1

/-- The accumulated gradient of node `uid` after a run, if any. -/
def GState.derivativeOf (s : GState) (uid : ℕ) : Option ℚ :=
  (s.find uid).bind NodeRec.derivative

/-- The empty construction state: counter at zero, empty arena. -/
def initState : GState := ⟨0, []⟩

/-- The spec's shared-leaf scenario: a single leaf `x` with value `v`,
`y = Mul.apply(x, x)`, then backward from `y` with seed derivative 1. -/
def sharedLeafRun (v : ℚ) : Except Defect GState :=
  let (x, s1) := Scalar.mkLeaf v initState
  match ScalarFunction.apply Mul [.scalar x, .scalar x] s1 with
  | .ok (y, s2) => backpropagate s2 y.unique_id 1
  | .error e => .error e

/-- The spec's chain-composition scenario, building phase: leaves `a` and
`b`, then `c = Mul.apply(a, b)`. -/
def chainBuild (a b : ℚ) : Except Defect (Scalar × GState) :=
  let (x, s1) := Scalar.mkLeaf a initState
  let (y, s2) := Scalar.mkLeaf b s1
  ScalarFunction.apply Mul [.scalar x, .scalar y] s2

/-- The spec's chain-composition scenario: backward from `c` with seed 1. -/
def chainRun (a b : ℚ) : Except Defect GState :=
  match chainBuild a b with
  | .ok (c, s3) => backpropagate s3 c.unique_id 1
  | .error e => .error e

/-- The raw values collected by the argument loop of `apply` are the raw
numeric values of the arguments, in call order. -/
theorem processVals_rawData (vals : List ScalarLike) (s : GState) :
    ((processVals vals s).1).map Prod.snd = vals.map ScalarLike.rawData := by
  induction vals generalizing s with
  | nil => rfl
  | cons v rest ih =>
    cases v with
    | scalar w => simp [processVals, ScalarLike.rawData, ih]
    | raw x => simp [processVals, Scalar.mkLeaf, ScalarLike.rawData, ih]

/-- The argument loop aligns its output pairs positionally with the
arguments: a Scalar argument is kept as the operand node, and every pair
carries the argument's raw value. -/
theorem processVals_aligned (vals : List ScalarLike) (s : GState) :
    List.Forall₂
      (fun (v : ScalarLike) (p : Scalar × ℚ) =>
        (∀ w, v = .scalar w → p.1 = w) ∧ p.2 = v.rawData)
      vals ((processVals vals s).1) := by
  induction vals generalizing s with
  | nil => exact List.Forall₂.nil
  | cons v rest ih =>
    cases v with
    | scalar w =>
      refine List.Forall₂.cons ⟨?_, rfl⟩ (ih s)
      intro w' hw'
      cases hw'
      rfl
    | raw x =>
      refine List.Forall₂.cons ⟨?_, rfl⟩ (ih _)
      intro w' hw'
      cases hw'

/-- The argument loop only appends nodes to the arena, and every node it
appends is a fresh leaf: no History, unset accumulator. -/
theorem processVals_nodes (vals : List ScalarLike) (s : GState) :
    ∃ l, (processVals vals s).2.nodes = s.nodes ++ l ∧
      ∀ n ∈ l, n.history = none ∧ n.derivative = none := by
  induction vals generalizing s with
  | nil => exact ⟨[], by simp [processVals], by simp⟩
  | cons v rest ih =>
    cases v with
    | scalar w =>
      obtain ⟨l, hl, hleaf⟩ := ih s
      exact ⟨l, by simpa [processVals] using hl, hleaf⟩
    | raw x =>
      obtain ⟨l, hl, hleaf⟩ := ih ⟨s.nextId + 1, s.nodes ++ [⟨s.nextId, x, none, none⟩]⟩
      refine ⟨⟨s.nextId, x, none, none⟩ :: l, ?_, ?_⟩
      · simpa [processVals, Scalar.mkLeaf] using hl
      · intro n hn
        rw [List.mem_cons] at hn
        rcases hn with rfl | hn
        · exact ⟨rfl, rfl⟩
        · exact hleaf n hn

/-- C1: Shared-leaf accumulation through the backward engine: for the graph
`y = Mul.apply(x, x)` built from a single leaf `x` with value `v`, running
backward with seed derivative 1 leaves `x`'s accumulated gradient equal to
`2·v` — two additive contributions of `v` each, summed by the gradient
buffer — which at `v = 3` is 6, and which is the true partial derivative of
`x·x` with respect to `x`. -/
theorem shared_leaf_accumulation (v : ℚ) :
    (sharedLeafRun v).toOption.bind (fun t => t.derivativeOf 0) = some (2 * v) ∧
    (sharedLeafRun 3).toOption.bind (fun t => t.derivativeOf 0) = some 6 ∧
    HasDerivAt (fun x : ℝ => x * x) ((2 * v : ℚ) : ℝ) (v : ℝ) := by
  refine ⟨?_, ?_, ?_⟩
  · have h : (sharedLeafRun v).toOption.bind (fun t => t.derivativeOf 0)
        = some (0 + (v * 1 + v * 1)) := rfl
    rw [h]
    congr 1
    ring
  · have h : (sharedLeafRun 3).toOption.bind (fun t => t.derivativeOf 0)
        = some (0 + ((3 : ℚ) * 1 + 3 * 1)) := rfl
    rw [h]
    norm_num
  · have h := (hasDerivAt_id (v : ℝ)).mul (hasDerivAt_id (v : ℝ))
    convert h using 1
    push_cast
    simp [id]
    ring

/-- C2: `Mul.forward(ctx, a, b)` returns `a·b` and saves exactly `(a, b)` in
the context; `Mul.backward(ctx, d)` with saved values `(a, b)` returns
`(b·d, a·d)`, positionally aligned with the two operands; and in the
chain-composition scenario `c = Mul.apply(a, b)` has value `a·b` (6 for the
leaves 2 and 3), and backward with seed 1 accumulates gradient `b` at `a`
(3 at the value 2) and `a` at `b` (2 at the value 3). -/
theorem mul_forward_backward (a b d : ℚ) (vs : List ℚ) (flag : Bool) :
    Mul.forward ⟨false, vs⟩ [a, b] = some (⟨false, [a, b]⟩, .float (a * b)) ∧
    Mul.backward ⟨flag, [a, b]⟩ d = .ok (.tup [b * d, a * d]) ∧
    (chainBuild a b).map (fun p => p.1.data) = .ok (a * b) ∧
    (chainBuild 2 3).map (fun p => p.1.data) = .ok 6 ∧
    (chainRun a b).toOption.bind (fun t => t.derivativeOf 0) = some b ∧
    (chainRun a b).toOption.bind (fun t => t.derivativeOf 1) = some a ∧
    (chainRun 2 3).toOption.bind (fun t => t.derivativeOf 0) = some 3 ∧
    (chainRun 2 3).toOption.bind (fun t => t.derivativeOf 1) = some 2 := by
  refine ⟨rfl, rfl, rfl, ?_, ?_, ?_, ?_, ?_⟩
  · have h : (chainBuild 2 3).map (fun p => p.1.data) = .ok ((2 : ℚ) * 3) := rfl
    rw [h]
    norm_num
  · have h : (chainRun a b).toOption.bind (fun t => t.derivativeOf 0)
        = some (0 + b * 1) := rfl
    rw [h]
    congr 1
    ring
  · have h : (chainRun a b).toOption.bind (fun t => t.derivativeOf 1)
        = some (0 + a * 1) := rfl
    rw [h]
    congr 1
    ring
  · have h : (chainRun 2 3).toOption.bind (fun t => t.derivativeOf 0)
        = some (0 + (3 : ℚ) * 1) := rfl
    rw [h]
    norm_num
  · have h : (chainRun 2 3).toOption.bind (fun t => t.derivativeOf 1)
        = some (0 + (2 : ℚ) * 1) := rfl
    rw [h]
    norm_num

/-- C6: Stop-gradient comparisons: the forward of GT, LT and EQ returns 1
when the comparison holds and 0 otherwise (saving the operand pair), and for
every context and output-derivative their backward returns exactly
`(0.0, 0.0)` — a zero derivative for every input position. -/
theorem comparisons_stop_gradient (a b d : ℚ) (vs : List ℚ) (ctx : Context) :
    GT.forward ⟨false, vs⟩ [a, b]
      = some (⟨false, [a, b]⟩, .float (if b < a then 1 else 0)) ∧
    LT.forward ⟨false, vs⟩ [a, b]
      = some (⟨false, [a, b]⟩, .float (if a < b then 1 else 0)) ∧
    EQ.forward ⟨false, vs⟩ [a, b]
      = some (⟨false, [a, b]⟩, .float (if a = b then 1 else 0)) ∧
    GT.backward ctx d = .ok (.tup [0, 0]) ∧
    LT.backward ctx d = .ok (.tup [0, 0]) ∧
    EQ.backward ctx d = .ok (.tup [0, 0]) := by
  refine ⟨?_, ?_, ?_, rfl, rfl, rfl⟩
  · by_cases h : b < a <;>
      simp [Minitorch.GT, operators.gt, Context.save_for_backward, h]
  · by_cases h : a < b <;>
      simp [Minitorch.LT, operators.lt, Context.save_for_backward, h]
  · by_cases h : a = b <;>
      simp [Minitorch.EQ, operators.eq, Context.save_for_backward, h]

/-- C7: Missing-saved-data failure: for every operation whose backward rule
reads saved values (Log, Mul, Inv, Neg, Sigmoid, ReLU, Exp), invoking
backward on a Context on which save was never called (empty saved sequence)
surfaces a MissingSavedData defect rather than returning a value. -/
theorem empty_context_missing_saved_data (lg ex : ℚ → ℚ) (flag : Bool) (d : ℚ) :
    (Log lg).backward ⟨flag, []⟩ d = .error .missingSavedData ∧
    Mul.backward ⟨flag, []⟩ d = .error .missingSavedData ∧
    Inv.backward ⟨flag, []⟩ d = .error .missingSavedData ∧
    Neg.backward ⟨flag, []⟩ d = .error .missingSavedData ∧
    (Sigmoid ex).backward ⟨flag, []⟩ d = .error .missingSavedData ∧
    ReLU.backward ⟨flag, []⟩ d = .error .missingSavedData ∧
    (Exp ex).backward ⟨flag, []⟩ d = .error .missingSavedData :=
  ⟨rfl, rfl, rfl, rfl, rfl, rfl, rfl⟩

/-- C9: ReLU boundary behaviour: forward returns `max(0, a)` and saves `a`;
backward with saved `a` returns `d` when `a > 0` and 0 otherwise — in
particular forward(−1) = 0 with backward derivative 0, and forward(1) = 1
with backward derivative equal to the seed `d`. -/
theorem relu_boundary (a d : ℚ) (vs : List ℚ) (flag : Bool) :
    ReLU.forward ⟨false, vs⟩ [a] = some (⟨false, [a]⟩, .float (max 0 a)) ∧
    ReLU.backward ⟨flag, [a]⟩ d = .ok (.val (if 0 < a then d else 0)) ∧
    ReLU.forward ⟨false, vs⟩ [-1] = some (⟨false, [-1]⟩, .float 0) ∧
    ReLU.backward ⟨flag, [-1]⟩ d = .ok (.val 0) ∧
    ReLU.forward ⟨false, vs⟩ [1] = some (⟨false, [1]⟩, .float 1) ∧
    ReLU.backward ⟨flag, [1]⟩ d = .ok (.val d) :=
  ⟨rfl, rfl, rfl, rfl, rfl, rfl⟩

/-- C10: Normalization invariant of `wrap_tuple`: a tuple is returned
unchanged, any other value becomes a one-element tuple, so `wrap_tuple` is
idempotent, and `ScalarFunction._backward` is exactly the operation's
backward result normalized through `wrap_tuple` — hence a tuple for every
operation and every output-derivative. -/
theorem wrap_tuple_normalization (x : FloatOrTuple) (v : ℚ) (xs : List ℚ)
    (cls : ScalarFunction) (ctx : Context) (d : ℚ) :
    wrap_tuple (.tup xs) = xs ∧
    wrap_tuple (.val v) = [v] ∧
    wrap_tuple (.tup (wrap_tuple x)) = wrap_tuple x ∧
    ScalarFunction._backward cls ctx d = (cls.backward ctx d).map wrap_tuple :=
  ⟨rfl, rfl, by cases x <;> rfl, rfl⟩

/-- A hypothetical operation whose forward returns a Python int rather than a
float, exercising the float assertion at the `apply` boundary. -/
def IntFn : ScalarFunction where
  forward := fun ctx _ => some (ctx, .int 1)
  backward := fun _ d_output => .ok (.val d_output)

/-- C3: Forward-result contract at the apply boundary: for every operation,
if the value its forward returns is not a single raw float, `apply` raises a
ContractViolation defect to the immediate caller instead of constructing and
returning a node. -/
theorem apply_rejects_nonfloat (cls : ScalarFunction) (vals : List ScalarLike)
    (s : GState) (ctx' : Context) (c : PyVal)
    (hf : ScalarFunction._forward cls ⟨false, []⟩
        (((processVals vals s).1).map Prod.snd) = some (ctx', c))
    (hc : c.isFloat = false) :
    ScalarFunction.apply cls vals s = .error .contractViolation := by
  unfold ScalarFunction.apply
  rcases hps : processVals vals s with ⟨pairs, s1⟩
  rw [hps] at hf
  dsimp only at hf ⊢
  rw [hf]
  cases c with
  | float x => simp [PyVal.isFloat] at hc
  | int n => rfl
  | tup xs => rfl

/-- C3 witness: an operation returning a Python int is rejected by `apply`
with a ContractViolation. -/
theorem apply_rejects_nonfloat_witness :
    ScalarFunction.apply IntFn [.raw 0] ⟨0, []⟩ = .error .contractViolation :=
  apply_rejects_nonfloat IntFn [.raw 0] ⟨0, []⟩ ⟨false, []⟩ (.int 1) rfl rfl

/-- C4: Backward-dispatch arity contract: `ScalarFunction._backward`
normalizes the operation's backward result through `wrap_tuple`, and the
engine's backward-dispatch accepts the normalized tuple exactly when its
length equals the number of raw operands the forward call received,
surfacing an ArityMismatch defect on any mismatch. -/
theorem backward_dispatch_arity (fn : ScalarFunction) (ctx : Context) (d : ℚ)
    (n : ℕ) (grads : List ℚ)
    (h : ScalarFunction._backward fn ctx d = .ok grads) :
    ScalarFunction._backward fn ctx d = (fn.backward ctx d).map wrap_tuple ∧
    (grads.length = n → backward_dispatch fn ctx d n = .ok grads) ∧
    (grads.length ≠ n → backward_dispatch fn ctx d n = .error .arityMismatch) := by
  refine ⟨rfl, ?_, ?_⟩ <;>
    intro hn <;>
    unfold backward_dispatch <;>
    rw [h] <;>
    simp [hn]

/-- C4 witness: `Add.backward` yields the two-element tuple `(d, d)`, so
dispatching it against three operands is an ArityMismatch defect. -/
theorem backward_dispatch_arity_witness :
    backward_dispatch Add ⟨false, []⟩ 1 3 = .error .arityMismatch :=
  (backward_dispatch_arity Add ⟨false, []⟩ 1 3 [1, 1] rfl).2.2 (by decide)

/-- C5: apply argument handling and node construction: on success for a
mixed sequence of raw numbers and existing Scalar nodes, `apply` invoked the
operation's forward on a fresh Context with the raw numeric values of all
operands in call order; every arena node it created besides the result is a
fresh leaf (no History, unset accumulator); the result node wraps the
forward value and its History records exactly the operation, the Context the
forward call produced, and the operand nodes in call order (Scalar arguments
kept as they were passed). -/
theorem apply_builds_node (cls : ScalarFunction) (vals : List ScalarLike)
    (s : GState) (nd : Scalar) (s' : GState)
    (h : ScalarFunction.apply cls vals s = .ok (nd, s')) :
    ∃ ctx' l,
      ScalarFunction._forward cls ⟨false, []⟩ (vals.map ScalarLike.rawData)
        = some (ctx', .float nd.data) ∧
      nd.unique_id = (processVals vals s).2.nextId ∧
      s'.nextId = nd.unique_id + 1 ∧
      s'.nodes = s.nodes ++ l ++
        [⟨nd.unique_id, nd.data, some ⟨cls, ctx',
            ((processVals vals s).1).map (fun p => p.1.unique_id)⟩, none⟩] ∧
      (∀ nrec ∈ l, nrec.history = none ∧ nrec.derivative = none) ∧
      List.Forall₂ (fun (v : ScalarLike) (p : Scalar × ℚ) =>
          (∀ w, v = .scalar w → p.1 = w) ∧ p.2 = v.rawData)
        vals ((processVals vals s).1) := by
  have hraw := processVals_rawData vals s
  have halign := processVals_aligned vals s
  obtain ⟨l, hl, hleaf⟩ := processVals_nodes vals s
  unfold ScalarFunction.apply at h
  rcases hps : processVals vals s with ⟨pairs, s1⟩
  rw [hps] at h hraw halign hl
  dsimp only at h hraw halign hl ⊢
  cases hf : ScalarFunction._forward cls ⟨false, []⟩ (pairs.map Prod.snd) with
  | none =>
    rw [hf] at h
    exact absurd h (by simp)
  | some p =>
    rcases p with ⟨ctx', c⟩
    rw [hf] at h
    cases c with
    | float x =>
      dsimp only at h
      rw [Except.ok.injEq, Prod.mk.injEq] at h
      obtain ⟨hnd, hs'⟩ := h
      refine ⟨ctx', l, ?_, ?_, ?_, ?_, hleaf, halign⟩
      · rw [← hraw, hf, ← hnd]
      · rw [← hnd]
      · rw [← hs', ← hnd]
      · rw [← hs', ← hnd]
        dsimp only
        rw [hl, List.append_assoc]
    | int n => exact absurd h (by simp)
    | tup xs => exact absurd h (by simp)

/-- C5 witness: applying `Add` to an existing node (value 5) and a raw 7
invokes forward with `[5, 7]` and wraps the result; the remaining conjuncts
of the theorem are instantiated alongside. -/
theorem apply_builds_node_witness :
    ∃ ctx' : Context, ScalarFunction._forward Add ⟨false, []⟩
        (List.map ScalarLike.rawData [ScalarLike.scalar ⟨0, 5⟩, ScalarLike.raw 7])
      = some (ctx', PyVal.float (Scalar.mk 2 (5 + 7)).data) := by
  obtain ⟨ctx', l, h1, _⟩ :=
    apply_builds_node Add [ScalarLike.scalar ⟨0, 5⟩, ScalarLike.raw 7]
      ⟨1, [⟨0, 5, none, none⟩]⟩ ⟨2, 5 + 7⟩
      ⟨3, [⟨0, 5, none, none⟩, ⟨1, 7, none, none⟩,
          ⟨2, 5 + 7, some ⟨Add, ⟨false, []⟩, [0, 1]⟩, none⟩]⟩ rfl
  exact ⟨ctx', h1⟩

/-- C8: Tracking invariant of apply-built nodes: `apply` creates its Context
with tracking active (`Context(False)`), so — whenever the forward rule
keeps the flag, as witnessed by the returned context — the History it
records carries a tracking-active context; `save_for_backward` on a
tracking-active context stores the values (not a no-op) while on a disabled
one it is a no-op; and the backward engine refuses (UntrackedBackward)
before invoking backward through any node whose recorded context has
tracking disabled. -/
theorem apply_tracking_active (cls : ScalarFunction) (vals : List ScalarLike)
    (s : GState) (nd : Scalar) (s' : GState) (ctx' : Context) (c : ℚ)
    (hfwd : ScalarFunction._forward cls ⟨false, []⟩
        (((processVals vals s).1).map Prod.snd) = some (ctx', .float c))
    (hflag : ctx'.no_grad = false)
    (h : ScalarFunction.apply cls vals s = .ok (nd, s')) :
    (∃ hh : ScalarHistory,
        s'.nodes = (processVals vals s).2.nodes ++
          [⟨nd.unique_id, nd.data, some hh, none⟩] ∧
        hh.last_fn = cls ∧ hh.ctx = ctx' ∧ hh.ctx.no_grad = false) ∧
    (∀ (vs prev : List ℚ), Context.save_for_backward ⟨false, prev⟩ vs = ⟨false, vs⟩) ∧
    (∀ (vs prev : List ℚ), Context.save_for_backward ⟨true, prev⟩ vs = ⟨true, prev⟩) ∧
    (∀ (t : GState) (buf : List (ℕ × ℚ)) (uid : ℕ) (n : NodeRec)
        (hh : ScalarHistory) (d : ℚ),
        List.lookup uid buf = some d → t.find uid = some n →
        n.history = some hh → hh.ctx.no_grad = true →
        stepNode (t, buf) uid = .error .untrackedBackward) := by
  refine ⟨?_, fun vs prev => rfl, fun vs prev => rfl, ?_⟩
  · unfold ScalarFunction.apply at h
    rcases hps : processVals vals s with ⟨pairs, s1⟩
    rw [hps] at h hfwd
    dsimp only at h hfwd ⊢
    rw [hfwd] at h
    dsimp only at h
    rw [Except.ok.injEq, Prod.mk.injEq] at h
    obtain ⟨hnd, hs'⟩ := h
    refine ⟨⟨cls, ctx', pairs.map (fun p => p.1.unique_id)⟩, ?_, rfl, rfl, hflag⟩
    rw [← hs', ← hnd]
  · intro t buf uid n hh d h1 h2 h3 h4
    unfold stepNode
    dsimp only
    rw [h1]
    dsimp only
    rw [h2]
    dsimp only
    rw [h3]
    dsimp only
    rw [h4]
    rfl

/-- C8 witness: `Mul.apply` on two raw numbers records a History whose
context has tracking active and holds the saved operands. -/
theorem apply_tracking_active_witness :
    ∃ hh : ScalarHistory,
      (GState.mk 3 [⟨0, 2, none, none⟩, ⟨1, 3, none, none⟩,
          ⟨2, 2 * 3, some ⟨Mul, ⟨false, [2, 3]⟩, [0, 1]⟩, none⟩]).nodes
        = (processVals [ScalarLike.raw 2, ScalarLike.raw 3] initState).2.nodes ++
          [⟨(Scalar.mk 2 (2 * 3)).unique_id, (Scalar.mk 2 (2 * 3)).data, some hh, none⟩] ∧
      hh.last_fn = Mul ∧ hh.ctx = ⟨false, [2, 3]⟩ ∧ hh.ctx.no_grad = false :=
  (apply_tracking_active Mul [ScalarLike.raw 2, ScalarLike.raw 3] initState
    ⟨2, 2 * 3⟩
    ⟨3, [⟨0, 2, none, none⟩, ⟨1, 3, none, none⟩,
        ⟨2, 2 * 3, some ⟨Mul, ⟨false, [2, 3]⟩, [0, 1]⟩, none⟩]⟩
    ⟨false, [2, 3]⟩ (2 * 3) rfl rfl rfl).1

end Minitorch
